import Mathlib

/-!
# Verification of the `iot` concurrent I/O benchmark (src/iot.c)

Shallow embedding of the worker engine of `iot.c`: the position
generators (`linpos`, `randpos`), the worker loop, the progress
aggregator (`incc`), the running-worker bookkeeping (`decnr`), the
fatal-error helper (`edie`) and the summary routine (`pst`).

Machine integers: `bc`, `bs`, `bm`, `tioc`, `running` are C `unsigned`
(32 bit); we model them as `Nat` and take `% 2^32` exactly where the C
code can overflow (the `++tioc` in `incc`, the `--running` in `decnr`).
The `int` values returned by `pread`/`pwrite` are modelled as `Int`.
Side effects (mutex operations, condition-variable signals, process
exit, output) are modelled as explicit event traces.
-/

namespace Iot

/-- C `unsigned` modulus. -/
def U32 : Nat := 2 ^ 32

/-! ## Position generators -/

/-- `linpos` (src/iot.c:128-132): linear position generator.
The state is the worker's private cursor `s->bn`; `bc` is the global
block count.  The C code is `if (s->bn >= bc) s->bn = 0; return s->bn++;`,
i.e. first wrap the cursor, then return it and advance.  Returns
(block number, new cursor). -/
def linpos (bc : Nat) (bn : Nat) : Nat × Nat :=
  let bn := if bn ≥ bc then 0 else bn
  (bn, bn + 1)

/-- Iterate `linpos` `n` times from cursor `bn`, collecting the returned
block numbers; also returns the final cursor. -/
def linposRun (bc : Nat) : Nat → Nat → List Nat × Nat
  | 0, bn => ([], bn)
  | n + 1, bn =>
    let p := linpos bc bn
    let q := linposRun bc n p.2
    (p.1 :: q.1, q.2)

/-- The `lrand48` linear congruential step on the hidden 48-bit state:
`X' = (0x5DEECE66D * X + 0xB) mod 2^48` (POSIX `drand48` family, used by
src/iot.c:122). -/
def lcgNext (x : Nat) : Nat := (0x5DEECE66D * x + 0xB) % 2 ^ 48

/-- `srand48(s)` initialises the hidden state to the low 32 bits of `s`
shifted left 16, with low word `0x330E` (POSIX). -/
def srand48state (s : Nat) : Nat := (s % 2 ^ 32) * 2 ^ 16 + 0x330E

/-- One `lrand48()` call: advance the hidden state, return its high
31 bits.  Returns (value, new state). -/
def lrand48 (x : Nat) : Nat × Nat :=
  let x := lcgNext x
  (x / 2 ^ 17, x)

/-- `randpos` (src/iot.c:117-126): random position generator,
`n = lrand48(); return n % bc;`.  The state is the hidden `lrand48`
state.  Returns (block number, new state). -/
def randpos (bc : Nat) (x : Nat) : Nat × Nat :=
  let p := lrand48 x
  (p.1 % bc, p.2)

/-- Iterate `randpos` `n` times from hidden state `x`, collecting the
returned block numbers; also returns the final hidden state. -/
def randposRun (bc : Nat) : Nat → Nat → List Nat × Nat
  | 0, x => ([], x)
  | n + 1, x =>
    let p := randpos bc x
    let q := randposRun bc n p.2
    (p.1 :: q.1, q.2)

/-- `main` (src/iot.c:254-262): when `-n` was not given (`bc == 0`) the
block count is derived from the target size: `bc = sz / bs;`. -/
def deriveBc (bc bs sz : Nat) : Nat := if bc = 0 then sz / bs else bc

/-- `main` (src/iot.c:264-277): the seed passed to `srand48`.  The
wall-clock variant (`tv.tv_usec ^ getpid()`) is compiled out (`#if 0`);
the live code passes the constant `0xfeda432`, so the seed ignores the
time-of-day and the pid, which we keep as explicit (unused) inputs. -/
def mainSeed (_tv_usec _pid : Nat) : Nat := 0xfeda432

/-- `main` (src/iot.c:264-277): the list of `srand48` calls made at
startup (with their argument): exactly one, with the fixed constant,
when at least one random class has threads; none otherwise. -/
def seedCalls (ntRndRd ntRndWr : Nat) : List Nat :=
  if ntRndRd ≠ 0 ∨ ntRndWr ≠ 0 then [mainSeed 0 0] else []

/-! ## Helper lemmas for the linear generator -/

lemma linpos_lt (bc bn : Nat) (h : bn < bc) : linpos bc bn = (bn, bn + 1) := by
  simp [linpos, Nat.not_le.2 h]

lemma linpos_wrap (bc bn : Nat) (h : bc ≤ bn) : linpos bc bn = (0, 1) := by
  simp [linpos, h]

/-- As long as the cursor does not reach `bc`, `linposRun` lists the
consecutive block numbers. -/
lemma linposRun_no_wrap (bc : Nat) :
    ∀ n bn, bn + n ≤ bc → linposRun bc n bn = (List.range' bn n, bn + n) := by
  intro n
  induction n with
  | zero => intro bn _; simp [linposRun]
  | succ n ih =>
    intro bn h
    have hlt : bn < bc := by omega
    have hrec := ih (bn + 1) (by omega)
    simp [linposRun, linpos_lt bc bn hlt, hrec, List.range'_succ]
    omega

lemma linposRun_from_zero (bc : Nat) :
    linposRun bc bc 0 = (List.range bc, bc) := by
  have h := linposRun_no_wrap bc bc 0 (by omega)
  simpa [List.range_eq_range'] using h

lemma linposRun_from_bc (bc : Nat) (h : 0 < bc) :
    linposRun bc bc bc = (List.range bc, bc) := by
  obtain ⟨k, rfl⟩ : ∃ k, bc = k + 1 := ⟨bc - 1, by omega⟩
  have hrec := linposRun_no_wrap (k + 1) k 1 (by omega)
  simp [linposRun, linpos_wrap (k + 1) (k + 1) le_rfl, hrec,
    List.range_eq_range', List.range'_succ]
  omega

/-! ## Shared-state operations as event traces

The mutex/condition-variable side effects of `incc`, `decnr` and `edie`
are modelled as explicit event lists, in the order the C code performs
them. -/

/-- A side effect on the shared state or the process. -/
inductive Ev where
  | lock
  | unlock
  | signal
  | broadcast
  | decRunning
  | incTioc
  | exitProc (status : Nat)
  deriving DecidableEq, Repr

/-- `incc` (src/iot.c:159-162): `if (!(++tioc % 1000))
pthread_cond_signal(&rncond);`.  No mutex operation appears in the
source of `incc`.  `tioc` is `unsigned`, so the increment wraps mod
`2^32`.  Returns (events, new `tioc`). -/
def incc (tioc : Nat) : List Ev × Nat :=
  let t := (tioc + 1) % U32
  ((if t % 1000 = 0 then [Ev.incTioc, Ev.signal] else [Ev.incTioc]), t)

/-- `decnr` (src/iot.c:163-168): lock `rnmtx`, `--running`, unlock,
broadcast `rncond`.  `running` is `volatile unsigned`, so the decrement
wraps mod `2^32`.  Returns (events, new `running`). -/
def decnr (running : Nat) : List Ev × Nat :=
  ([Ev.lock, Ev.decRunning, Ev.unlock, Ev.broadcast],
    (running + (U32 - 1)) % U32)

/-- `edie` (src/iot.c:68-71): print the message to stderr and
`exit(1)`. -/
def edie : List Ev := [Ev.exitProc 1]

/-- The open-failure path of `worker` (src/iot.c:176-182): when
`open(fn, ...)` returns `fd < 0`, the worker calls `decnr()` and then
`edie(fn)`; otherwise it proceeds to the loop with no shared-state
events.  Returns (events, new `running`). -/
def workerStart (fd : Int) (running : Nat) : List Ev × Nat :=
  if fd < 0 then ((decnr running).1 ++ edie, (decnr running).2)
  else ([], running)

/-! ## The worker I/O loop -/

/-- Why the worker loop exited. -/
inductive ExitR where
  | stopFlag
  | ioError
  | limit
  deriving DecidableEq, Repr

/-- The `for(;;)` loop of `worker` (src/iot.c:184-193):

    for(;;) \x7b
      if (term) break;
      if (s->workfn(s, s->posfn(s)) < 0) \x7b perror(...); break; \x7d
      ++s->ioc;
      incc();
      if (bm && s->ioc >= bm) break;
    \x7d

`bm` is the `-i` operation limit (0 = none), `stop i` the value of the
volatile flag `term` as observed at the iteration entered with local
counter `i`, and `ioRet i` the `int` returned by the `pwrite`/`pread`
issued at that iteration (bytes transferred, or negative on error).
Fuel bounds the number of iterations we unfold; the result is the local
counter `s->ioc` at loop exit together with the exit reason, or `none`
if the loop is still running when the fuel runs out. -/
def workerLoop (bm : Nat) (stop : Nat → Bool) (ioRet : Nat → Int) :
    Nat → Nat → Option (Nat × ExitR)
  | 0, _ => none
  | fuel + 1, ioc =>
    if stop ioc then some (ioc, ExitR.stopFlag)
    else if ioRet ioc < 0 then some (ioc, ExitR.ioError)
    else if bm ≠ 0 ∧ ioc + 1 ≥ bm then some (ioc + 1, ExitR.limit)
    else workerLoop bm stop ioRet fuel (ioc + 1)

/-- An I/O return value is a short transfer when it is non-negative but
fewer bytes than the requested block size `bs` (src/iot.c:134-139:
`wwriter`/`wreader` request exactly `bs` bytes per call). -/
def isShort (bs : Nat) (ret : Int) : Prop := 0 ≤ ret ∧ ret < bs

instance (bs : Nat) (ret : Int) : Decidable (isShort bs ret) := by
  unfold isShort; infer_instance

/-! ## The summary routine `pst` and the final output -/

/-- The per-worker fields `pst` reads: the local operation counter
`s->ioc` and the operation class `s->opi` (0 = LinRd, 1 = RndRd,
2 = LinWr, 3 = RndWr). -/
structure WState where
  ioc : Nat
  opi : Fin 4
  deriving DecidableEq, Repr

/-- The per-class count array `c[4]` computed by `pst`
(src/iot.c:141-157): `for(i...) c[states[i].opi] += states[i].ioc;`.
(The rate array `r[4]` uses floating-point division and is not
modelled; it is not printed either, see `pstOutput`.) -/
def pstC (states : List WState) : Fin 4 → Nat :=
  states.foldl (fun c st => Function.update c st.opi (c st.opi + st.ioc))
    (fun _ => 0)

/-- The lines `pst` writes to its stream `f` (src/iot.c:141-157): the
whole printing loop (lines 152-156, `fprintf(f, " %s %u %.2f", ...)`)
is commented out in the source, so `pst` writes nothing. -/
def pstOutput (_states : List WState) : List String := []

/-- What `main` writes to stdout at completion (src/iot.c:301-303):
`putc('\r', stderr); pst(stdout); putc('\n', stdout);` — the output of
`pst` followed by a newline. -/
def mainStdout (states : List WState) : String :=
  String.join (pstOutput states) ++ "\n"

/-- The sum of the workers' local counters, as the spec's
"sum of all workers' local operation counters". -/
def iocSum (states : List WState) : Nat :=
  states.foldl (fun a st => a + st.ioc) 0

/-- Running-worker count after `k` calls of `decnr` starting from the
initial `running = ntt` set in `main` (src/iot.c:286). -/
def runningAfter (ntt k : Nat) : Nat :=
  (fun r => (decnr r).2)^[k] ntt

/-! ## Helper lemmas -/

lemma iocSum_foldl (l : List WState) :
    ∀ a, l.foldl (fun a st => a + st.ioc) a = a + iocSum l := by
  induction l with
  | nil => intro a; simp [iocSum]
  | cons st l ih =>
    intro a
    have h1 := ih (a + st.ioc)
    have h2 := ih (0 + st.ioc)
    simp only [iocSum, List.foldl_cons] at h1 h2 ⊢
    omega

lemma update_sum (c : Fin 4 → Nat) (i : Fin 4) (v : Nat) :
    Function.update c i (c i + v) 0 + Function.update c i (c i + v) 1 +
      Function.update c i (c i + v) 2 + Function.update c i (c i + v) 3 =
    c 0 + c 1 + c 2 + c 3 + v := by
  fin_cases i <;> simp [Function.update] <;> omega

/-- The four entries of the class-count array computed by `pst` sum to
the sum of the workers' local counters (the aggregation in
src/iot.c:147-151 loses no operations). -/
lemma pstC_total (l : List WState) :
    pstC l 0 + pstC l 1 + pstC l 2 + pstC l 3 = iocSum l := by
  suffices h : ∀ c : Fin 4 → Nat,
      (l.foldl (fun c st => Function.update c st.opi (c st.opi + st.ioc)) c) 0 +
      (l.foldl (fun c st => Function.update c st.opi (c st.opi + st.ioc)) c) 1 +
      (l.foldl (fun c st => Function.update c st.opi (c st.opi + st.ioc)) c) 2 +
      (l.foldl (fun c st => Function.update c st.opi (c st.opi + st.ioc)) c) 3 =
      c 0 + c 1 + c 2 + c 3 + iocSum l by
    simpa [pstC] using h (fun _ => 0)
  induction l with
  | nil => intro c; simp [iocSum]
  | cons st l ih =>
    intro c
    have hsum : iocSum (st :: l) = st.ioc + iocSum l := by
      simp only [iocSum, List.foldl_cons]
      simpa using iocSum_foldl l (0 + st.ioc)
    have hstep := ih (Function.update c st.opi (c st.opi + st.ioc))
    have hupd := update_sum c st.opi st.ioc
    simp only [List.foldl_cons]
    rw [hstep]
    clear ih hstep
    omega

lemma workerLoop_limit_aux (bm : Nat) (stop : Nat → Bool) (ioRet : Nat → Int)
    (hstop : ∀ i, stop i = false) (hio : ∀ i, 0 ≤ ioRet i) :
    ∀ fuel ioc, ioc < bm → bm ≤ ioc + fuel →
      workerLoop bm stop ioRet fuel ioc = some (bm, ExitR.limit) := by
  intro fuel
  induction fuel with
  | zero => intro ioc h1 h2; omega
  | succ fuel ih =>
    intro ioc h1 h2
    have hio' : ¬ ioRet ioc < 0 := not_lt.2 (hio ioc)
    by_cases hend : ioc + 1 ≥ bm
    · have : ioc + 1 = bm := by omega
      simp [workerLoop, hstop, hio', hend, this, (by omega : bm ≠ 0)]
      omega
    · have := ih (ioc + 1) (by omega) (by omega)
      simp [workerLoop, hstop, hio', hend, this]

/-! ## Claim theorems -/

/-- C1 (code bug): at the spec's own scenario — one linear-read worker
that completed 128 operations — the summary routine `pst` writes
nothing (its printing loop, src/iot.c:152-156, is commented out), so
the program's entire stdout at completion is a bare newline; no summary
line carrying the total operation count is printed, although the
per-class counts `pst` computes do sum to the workers' total. -/
theorem pst_prints_no_summary :
    pstOutput [⟨128, 0⟩] = [] ∧
    mainStdout [⟨128, 0⟩] = "\n" ∧
    pstC [⟨128, 0⟩] 0 + pstC [⟨128, 0⟩] 1 + pstC [⟨128, 0⟩] 2 + pstC [⟨128, 0⟩] 3 =
      iocSum [⟨128, 0⟩] := by
  refine ⟨rfl, rfl, ?_⟩
  exact pstC_total [⟨128, 0⟩]

/-- C2 counterexample: with block size 8192, a positioned read that
transfers only 4096 bytes is a short transfer, yet the worker loop
(src/iot.c:186 tests only `< 0`) does not stop with an error: it counts
the operation as completed (the counter reaches 1) and exits through
the operation limit, not through the error branch. -/
theorem short_transfer_not_fatal :
    isShort 8192 4096 ∧
    workerLoop 1 (fun _ => false) (fun _ => (4096 : Int)) 1 0 =
      some (1, ExitR.limit) := by
  exact ⟨by decide, by decide⟩

/-- C2 (amended): a negative return value from the positioned read or
write stops the worker at once with a worker-local I/O error, without
retrying and without counting the operation; a non-negative return
value — even a short transfer of fewer than `bs` bytes — is never
treated as an error: the operation is counted and the loop goes on
(exiting only if the count limit is now reached). -/
theorem io_error_only_when_negative (bm : Nat) (stop : Nat → Bool)
    (ioRet : Nat → Int) (fuel ioc : Nat) (hstop : stop ioc = false) :
    (ioRet ioc < 0 →
      workerLoop bm stop ioRet (fuel + 1) ioc = some (ioc, ExitR.ioError)) ∧
    (0 ≤ ioRet ioc →
      workerLoop bm stop ioRet (fuel + 1) ioc =
        if bm ≠ 0 ∧ ioc + 1 ≥ bm then some (ioc + 1, ExitR.limit)
        else workerLoop bm stop ioRet fuel (ioc + 1)) := by
  constructor
  · intro h
    simp [workerLoop, hstop, h]
  · intro h
    simp [workerLoop, hstop, not_lt.2 h]

theorem io_error_only_when_negative_witness :
    workerLoop 5 (fun _ => false) (fun _ => (-1 : Int)) 3 0 =
      some (0, ExitR.ioError) ∧
    workerLoop 5 (fun _ => false) (fun _ => (4096 : Int)) 3 2 =
      (if 5 ≠ 0 ∧ 2 + 1 ≥ 5 then some (2 + 1, ExitR.limit)
       else workerLoop 5 (fun _ => false) (fun _ => (4096 : Int)) 2 (2 + 1)) :=
  ⟨(io_error_only_when_negative 5 (fun _ => false) (fun _ => (-1 : Int)) 2 0
      rfl).1 (by decide),
   (io_error_only_when_negative 5 (fun _ => false) (fun _ => (4096 : Int)) 2 2
      rfl).2 (by decide)⟩

/-- C3: for every block count `C ≥ 1`, the linear generator started at
cursor 0 and called `C` times returns exactly the blocks `0, 1, ...,
C-1` in order (each value of `[0, C)` exactly once, no gaps or skips),
leaves the cursor at `C`, and the next `C` calls return the very same
sequence again. -/
theorem linpos_full_coverage (C : Nat) (h : 0 < C) :
    linposRun C C 0 = (List.range C, C) ∧
    (∀ v, v < C → (linposRun C C 0).1.count v = 1) ∧
    linposRun C C C = (List.range C, C) := by
  refine ⟨linposRun_from_zero C, ?_, linposRun_from_bc C h⟩
  intro v hv
  rw [linposRun_from_zero]
  exact List.count_eq_one_of_mem (List.nodup_range C) (List.mem_range.2 hv)

theorem linpos_full_coverage_witness :
    linposRun 4 4 0 = (List.range 4, 4) ∧
    (linposRun 4 4 0).1.count 2 = 1 ∧
    linposRun 4 4 4 = (List.range 4, 4) :=
  ⟨(linpos_full_coverage 4 (by decide)).1,
   (linpos_full_coverage 4 (by decide)).2.1 2 (by decide),
   (linpos_full_coverage 4 (by decide)).2.2⟩

/-- C4 counterexample: the block count may legitimately be 0 — with the
default block size 8192 and a 4096-byte target and no `-n`, `main`
derives `bc = 4096 / 8192 = 0` (src/iot.c:254-262) — and in that state
the linear generator returns 0, which does not satisfy
`0 ≤ index < block_count`. -/
theorem genpos_out_of_range_at_bc0 :
    deriveBc 0 8192 4096 = 0 ∧
    ¬ (linpos (deriveBc 0 8192 4096) 0).1 < deriveBc 0 8192 4096 := by
  exact ⟨by decide, by decide⟩

/-- C4 (amended): whenever the block count is at least 1 — in
particular whenever the target holds at least one full block, so that
the derived count `size / block_size` is non-zero — every call to
either generator, in any state, returns a block index in
`[0, block_count)`; with a block count of 0 the linear generator
returns the out-of-range index 0. -/
theorem genpos_in_range (bc : Nat) (h : 0 < bc) :
    (∀ x, (randpos bc x).1 < bc) ∧ (∀ bn, (linpos bc bn).1 < bc) := by
  constructor
  · intro x
    exact Nat.mod_lt _ h
  · intro bn
    simp only [linpos]
    split
    · exact h
    · omega

theorem genpos_in_range_witness :
    (randpos 128 7).1 < 128 ∧ (linpos 128 200).1 < 128 :=
  ⟨(genpos_in_range 128 (by decide)).1 7,
   (genpos_in_range 128 (by decide)).2 200⟩

/-- C5: with a configured operation limit `N ≥ 1`, if the stop flag is
never observed set and every I/O call succeeds (returns non-negatively),
the worker loop exits through the limit check with its local counter
exactly `N` — it performs exactly `N` operations. -/
theorem worker_exact_limit (N : Nat) (stop : Nat → Bool) (ioRet : Nat → Int)
    (hN : 0 < N) (hstop : ∀ i, stop i = false) (hio : ∀ i, 0 ≤ ioRet i)
    (fuel : Nat) (hfuel : N ≤ fuel) :
    workerLoop N stop ioRet fuel 0 = some (N, ExitR.limit) :=
  workerLoop_limit_aux N stop ioRet hstop hio fuel 0 hN (by omega)

theorem worker_exact_limit_witness :
    workerLoop 3 (fun _ => false) (fun _ => (8192 : Int)) 10 0 =
      some (3, ExitR.limit) :=
  worker_exact_limit 3 (fun _ => false) (fun _ => (8192 : Int)) (by decide)
    (fun _ => rfl) (fun _ => (by decide : (0 : Int) ≤ 8192)) 10 (by decide)

/-- C6 counterexample: recording one completed operation runs `incc`
(src/iot.c:159-162), whose event trace contains the increment of the
shared total but no acquisition of the shared mutex at all — the
increment is not performed under the mutex. -/
theorem incc_increments_without_mutex :
    Ev.incTioc ∈ (incc 0).1 ∧ Ev.lock ∉ (incc 0).1 := by
  exact ⟨by decide, by decide⟩

/-- C6 (amended): every time a worker records a completed operation,
`incc` increments the shared total WITHOUT taking the shared mutex (no
lock or unlock appears in its trace; the total is therefore accessed
outside the mutex, unlike the decrement in `decnr`), and it signals the
ReportingLoop through the shared condition variable exactly when the
incremented total is a multiple of the fixed batch size 1000. -/
theorem incc_unlocked_signal_at_batch (tioc : Nat) :
    Ev.lock ∉ (incc tioc).1 ∧ Ev.unlock ∉ (incc tioc).1 ∧
    (incc tioc).2 = (tioc + 1) % U32 ∧
    (Ev.signal ∈ (incc tioc).1 ↔ ((tioc + 1) % U32) % 1000 = 0) ∧
    Ev.lock ∈ (decnr tioc).1 := by
  unfold incc decnr
  by_cases h : (tioc + 1) % U32 % 1000 = 0 <;> simp [h]

/-- C7: when a worker's `open` of the target fails (returns a negative
descriptor), the worker first runs `decnr` — so the trace decrements
the running count, under the mutex, before the process abort — and then
`edie` terminates the whole process with exit status 1; the running
count held by the main thread is left at its old value minus one. -/
theorem worker_open_fail_aborts (fd : Int) (running : Nat) (hfd : fd < 0)
    (h0 : 0 < running) (hU : running < U32) :
    (workerStart fd running).1 =
      [Ev.lock, Ev.decRunning, Ev.unlock, Ev.broadcast, Ev.exitProc 1] ∧
    (workerStart fd running).2 = running - 1 ∧
    (workerStart fd running).1.indexOf Ev.decRunning <
      (workerStart fd running).1.indexOf (Ev.exitProc 1) := by
  have htr : workerStart fd running =
      ([Ev.lock, Ev.decRunning, Ev.unlock, Ev.broadcast, Ev.exitProc 1],
        (running + (U32 - 1)) % U32) := by
    simp [workerStart, hfd, decnr, edie]
  have hval : (running + (U32 - 1)) % U32 = running - 1 := by
    have h1 : running + (U32 - 1) = U32 + (running - 1) := by
      have : U32 = 4294967296 := rfl
      omega
    have h2 : running - 1 < U32 := by omega
    rw [h1, Nat.add_mod_left, Nat.mod_eq_of_lt h2]
  rw [htr]
  exact ⟨rfl, hval,
    (by decide :
      List.indexOf Ev.decRunning
          [Ev.lock, Ev.decRunning, Ev.unlock, Ev.broadcast, Ev.exitProc 1] <
        List.indexOf (Ev.exitProc 1)
          [Ev.lock, Ev.decRunning, Ev.unlock, Ev.broadcast, Ev.exitProc 1])⟩

theorem worker_open_fail_aborts_witness :
    (workerStart (-1) 4).1 =
      [Ev.lock, Ev.decRunning, Ev.unlock, Ev.broadcast, Ev.exitProc 1] ∧
    (workerStart (-1) 4).2 = 4 - 1 ∧
    (workerStart (-1) 4).1.indexOf Ev.decRunning <
      (workerStart (-1) 4).1.indexOf (Ev.exitProc 1) :=
  worker_open_fail_aborts (-1) 4 (by decide) (by decide) (by decide)

/-- C8: whenever the run uses at least one random worker, `main` seeds
the random source exactly once, with the fixed constant `0xfeda432`
(the wall-clock seeding is compiled out), and the sequence of blocks
produced by any fixed number of random-position draws is a pure
function of the seed state — so it is identical across any two runs,
whatever the time of day or pid of each run. -/
theorem fixed_seed_reproducible (ntRndRd ntRndWr : Nat)
    (h : 0 < ntRndRd ∨ 0 < ntRndWr) :
    seedCalls ntRndRd ntRndWr = [0xfeda432] ∧
    (∀ t1 p1 t2 p2 n bc,
      randposRun bc n (srand48state (mainSeed t1 p1)) =
        randposRun bc n (srand48state (mainSeed t2 p2))) := by
  constructor
  · have hc : ntRndRd ≠ 0 ∨ ntRndWr ≠ 0 := by omega
    simp [seedCalls, hc, mainSeed]
  · intro t1 p1 t2 p2 n bc
    rfl

theorem fixed_seed_reproducible_witness :
    seedCalls 1 0 = [0xfeda432] ∧
    randposRun 128 5 (srand48state (mainSeed 123456 789)) =
      randposRun 128 5 (srand48state (mainSeed 999 42)) :=
  ⟨(fixed_seed_reproducible 1 0 (Or.inl (by decide))).1,
   (fixed_seed_reproducible 1 0 (Or.inl (by decide))).2 123456 789 999 42 5 128⟩

/-- C9: starting from `running = ntt` (one slot per created worker,
src/iot.c:286), after any number `k ≤ ntt` of `decnr` calls — each of
the `ntt` workers calls `decnr` exactly once, so no more than `ntt`
calls ever happen — the count is exactly `ntt - k`; every call strictly
decreases it, and it is zero exactly when all `ntt` decrements have
happened, so zero is reached exactly once, as the final value. -/
theorem running_only_decreases (ntt k : Nat) (hU : ntt < U32) (hk : k ≤ ntt) :
    runningAfter ntt k = ntt - k ∧
    (∀ j, j < k → runningAfter ntt (j + 1) < runningAfter ntt j) ∧
    (runningAfter ntt k = 0 ↔ k = ntt) := by
  have key : ∀ j, j ≤ ntt → runningAfter ntt j = ntt - j := by
    intro j
    induction j with
    | zero => intro _; simp [runningAfter]
    | succ j ih =>
      intro hj
      have hprev := ih (by omega)
      have hstep : runningAfter ntt (j + 1) =
          (runningAfter ntt j + (U32 - 1)) % U32 := by
        simp [runningAfter, Function.iterate_succ_apply', decnr]
      rw [hstep, hprev]
      have h1 : ntt - j + (U32 - 1) = U32 + (ntt - (j + 1)) := by
        have : U32 = 4294967296 := rfl
        omega
      have h2 : ntt - (j + 1) < U32 := by omega
      rw [h1, Nat.add_mod_left, Nat.mod_eq_of_lt h2]
  refine ⟨key k hk, ?_, ?_⟩
  · intro j hj
    rw [key j (by omega), key (j + 1) (by omega)]
    omega
  · rw [key k hk]
    omega

theorem running_only_decreases_witness :
    runningAfter 3 3 = 3 - 3 ∧
    runningAfter 3 (1 + 1) < runningAfter 3 1 ∧
    (runningAfter 3 3 = 0 ↔ 3 = 3) :=
  ⟨(running_only_decreases 3 3 (by decide) (by decide)).1,
   (running_only_decreases 3 3 (by decide) (by decide)).2.1 1 (by decide),
   (running_only_decreases 3 3 (by decide) (by decide)).2.2⟩

/-- C10: with the operation limit configured as 0 (`-i 0`, or `-i`
omitted, since `bm` is a zero-initialised static), the limit check
`bm && s->ioc >= bm` never fires: if the stop flag stays clear and
every I/O succeeds, the loop never exits however many iterations are
unfolded — the worker runs unlimited instead of performing zero
operations. -/
theorem zero_limit_means_unlimited (stop : Nat → Bool) (ioRet : Nat → Int)
    (hstop : ∀ i, stop i = false) (hio : ∀ i, 0 ≤ ioRet i) :
    ∀ fuel ioc, workerLoop 0 stop ioRet fuel ioc = none := by
  intro fuel
  induction fuel with
  | zero => intro ioc; rfl
  | succ fuel ih =>
    intro ioc
    simp [workerLoop, hstop, not_lt.2 (hio ioc), ih]

theorem zero_limit_means_unlimited_witness :
    workerLoop 0 (fun _ => false) (fun _ => (8192 : Int)) 50 0 = none :=
  zero_limit_means_unlimited (fun _ => false) (fun _ => (8192 : Int))
    (fun _ => rfl) (fun _ => (by decide : (0 : Int) ≤ 8192)) 50 0

end Iot
